import Mathlib

/-!
Verification of the analysis pipeline of `bundle-stats-action`.

The development shallowly embeds the TypeScript sources:
* `src/utils/file-size.ts` — byte-count formatting (`formatFileSize`);
* `src/parser/stats-parser.ts` — manifest parsing (`StatsParser.parse`);
* `src/analyzer/bundle-analyzer.ts` — chunk attribution, filtering,
  threshold evaluation (`BundleAnalyzer.analyze`);
* `src/formatter/badge-generator.ts` — badge color selection.

Modelling conventions:
* JavaScript numbers that hold byte counts are modelled as `Int`
  (sizes in webpack stats are integers, exactly representable).
* `Math.floor(Math.log(n) / Math.log(1024))` is modelled exactly as
  `Nat.log 1024 n`; the IEEE-754 double computation agrees with the exact
  floor logarithm on the integer inputs considered here.
* `Number.prototype.toFixed(d)` and `Math.round` round to the nearest
  value, ties away from zero; on the nonnegative exact rationals
  `num / den` arising here both equal `⌊(num·10^d + den/2) / den⌋`,
  computed in `renderFixed` by exact integer arithmetic.
* `String.prototype.endsWith` is modelled on the character list.
* A JavaScript `Map<string, string[]>` is modelled as an association list
  with first-match lookup and in-place replacement on update.
* `JSON.parse` is external to the repository; its outcome is modelled as
  an `Option JsonValue` argument (`none` models a syntax error being
  thrown, `some v` a successfully decoded value).
-/

/-- `String.prototype.endsWith`, modelled on the underlying character list. -/
def strEndsWith (s suffix : String) : Bool :=
  suffix.data.isSuffixOf s.data

/-- The unit table `SIZES = ['B', 'KB', 'MB', 'GB']` from `file-size.ts`.
Indexing out of range in JavaScript yields `undefined`, which the template
literal renders as the string `"undefined"`; `SIZES.getD i "undefined"`
models that. -/
def SIZES : List String := ["B", "KB", "MB", "GB"]

/-- Left-pad a numeral string with zeros to `d` digits (used to render the
fractional part produced by `toFixed`). -/
def padZeros (s : String) (d : Nat) : String :=
  String.mk (List.replicate (d - s.length) '0') ++ s

/-- `(num / den).toFixed(d)` (and, for `d = 0`, `Math.round(num / den)`)
for a nonnegative exact rational `num / den`: round to the nearest
multiple of `10^(-d)`, ties upward, then render with exactly `d` decimal
places (none for `d = 0`). -/
def renderFixed (num den d : Nat) : String :=
  let n := (2 * num * 10 ^ d + den) / (2 * den)
  if d = 0 then toString n
  else toString (n / 10 ^ d) ++ "." ++ padZeros (toString (n % 10 ^ d)) d

/-- The body of `formatFileSize` after the unit index `i` has been
computed: `den = 1024^i` is the scaling divisor, the scaled magnitude is
`absBytes / den`, and the decimal-place cascade follows the source:
`i == 0` → 0 places, `size >= 100` → 0 places, `size >= 10` → 1 place,
otherwise 2 places.  `size >= c` is the exact comparison
`c * den ≤ absBytes`. -/
def formatWithIndex (absBytes i : Nat) : String :=
  let den := 1024 ^ i
  let unit := SIZES.getD i "undefined"
  if i = 0 then renderFixed absBytes den 0 ++ " " ++ unit
  else if 100 * den ≤ absBytes then renderFixed absBytes den 0 ++ " " ++ unit
  else if 10 * den ≤ absBytes then renderFixed absBytes den 1 ++ " " ++ unit
  else renderFixed absBytes den 2 ++ " " ++ unit

/-- `formatFileSize` from `src/utils/file-size.ts`: zero renders as
`"0 B"`, negative values render the formatted magnitude prefixed with
`"-"`, and otherwise the unit index is
`Math.floor(Math.log(absBytes) / Math.log(1024))`, modelled exactly as
`Nat.log 1024 absBytes`. -/
def formatFileSize (bytes : Int) : String :=
  if bytes = 0 then "0 B"
  else
    let absBytes := bytes.natAbs
    let formatted := formatWithIndex absBytes (Nat.log 1024 absBytes)
    if bytes < 0 then "-" ++ formatted else formatted

/-- The decimal-precision rule as the specification words it, applied to
the scaled magnitude `m = absBytes / den` in the chosen unit: zero places
when the unit is bytes or `m ≥ 100`, one place when `10 ≤ m < 100`, two
places when `m < 10`. -/
def specPrecision (i absBytes den : Nat) : Nat :=
  if i = 0 ∨ 100 * den ≤ absBytes then 0
  else if 10 * den ≤ absBytes ∧ absBytes < 100 * den then 1
  else 2

/-- Rendering with the number of decimal places chosen by the
specification's precision rule (`specPrecision`); used to compare
`formatFileSize` against the specification's wording. -/
def formatFileSizeSpec (bytes : Int) : String :=
  if bytes = 0 then "0 B"
  else
    let absBytes := bytes.natAbs
    let i := Nat.log 1024 absBytes
    let den := 1024 ^ i
    let formatted :=
      renderFixed absBytes den (specPrecision i absBytes den) ++ " " ++ SIZES.getD i "undefined"
    if bytes < 0 then "-" ++ formatted else formatted

/-- Decoded JSON values, the possible results of `JSON.parse`. -/
inductive JsonValue where
  | null
  | bool (b : Bool)
  | num (q : ℚ)
  | str (s : String)
  | arr (elems : List JsonValue)
  | obj (fields : List (String × JsonValue))

/-- First-match field lookup in a decoded JSON object (`JSON.parse`
produces unique keys, and property access reads that unique binding). -/
def lookupField : List (String × JsonValue) → String → Option JsonValue
  | [], _ => none
  | f :: rest, k => if f.1 == k then some f.2 else lookupField rest k

/-- `typeof data === 'object'`: true for objects, arrays and `null`. -/
def jsTypeofObject : JsonValue → Bool
  | .obj _ => true
  | .arr _ => true
  | .null => true
  | _ => false

/-- `data === null`. -/
def isJsNull : JsonValue → Bool
  | .null => true
  | _ => false

/-- `'assets' in data`: property presence, which holds only for objects
owning the key (an array has no `assets` property). -/
def hasAssetsProp : JsonValue → Bool
  | .obj fields => (lookupField fields "assets").isSome
  | _ => false

/-- `Array.isArray(data.assets)`. -/
def assetsIsArray : JsonValue → Bool
  | .obj fields =>
    match lookupField fields "assets" with
    | some (.arr _) => true
    | _ => false
  | _ => false

/-- Error codes of the parser, from `src/errors.ts`. -/
inductive ErrorCode where
  | JSON_PARSE_ERROR
  | INVALID_STATS_FORMAT
deriving DecidableEq

/-- `StatsParser.isValidStats`:
`typeof data === 'object' && data !== null && 'assets' in data &&
Array.isArray(data.assets)`. -/
def isValidStats (data : JsonValue) : Bool :=
  jsTypeofObject data && !(isJsNull data) && hasAssetsProp data && assetsIsArray data

/-- `StatsParser.parse`: the `Option JsonValue` argument stands for the
outcome of `JSON.parse` (`none` models the throw on syntactically invalid
JSON).  A parse failure raises `JSON_PARSE_ERROR`; a decoded value failing
`isValidStats` raises `INVALID_STATS_FORMAT`; otherwise the decoded value
is returned unchanged — no further structural validation happens. -/
def statsParse (content : Option JsonValue) : Except ErrorCode JsonValue :=
  match content with
  | none => Except.error ErrorCode.JSON_PARSE_ERROR
  | some data =>
    if isValidStats data then Except.ok data
    else Except.error ErrorCode.INVALID_STATS_FORMAT

/-- The specification's schema condition, worded directly: the decoded
value is an object containing an array-typed `assets` field. -/
def specValidManifest (v : JsonValue) : Prop :=
  ∃ fields elems, v = JsonValue.obj fields ∧
    lookupField fields "assets" = some (JsonValue.arr elems)

/-- A raw webpack asset (`Asset` in `src/types.ts`); only the fields read
by the analyzer are carried (`chunks` is never read by it). -/
structure Asset where
  name : String
  size : Int
  emitted : Option Bool := none
  isOverSizeLimit : Option Bool := none
deriving DecidableEq

/-- A webpack chunk record (`Chunk` in `src/types.ts`); only the fields
read by the analyzer are carried (`id`, `size`, `hash` are never read). -/
structure Chunk where
  names : List String
  files : Option (List String) := none

/-- A webpack chunk group (`ChunkGroup` in `src/types.ts`); only `assets`
is read by the analyzer. -/
structure ChunkGroup where
  assets : List String

/-- A value of the TypeScript union `string | string[]`, the value type of
`assetsByChunkName`. -/
inductive ChunkNameAssets where
  | one (s : String)
  | many (l : List String)

/-- `Array.isArray(assets) ? assets : [assets]` from `buildChunkMapping`. -/
def normalizeChunkAssets : ChunkNameAssets → List String
  | .one s => [s]
  | .many l => l

/-- The decoded manifest (`WebpackStats` in `src/types.ts`) restricted to
the fields the analyzer reads.  The two `Record<string, …>` fields are
modelled as association lists in key-insertion order; a JavaScript object
cannot repeat a key, so well-formed values have pairwise distinct keys. -/
structure WebpackStats where
  assets : List Asset
  chunks : Option (List Chunk) := none
  assetsByChunkName : Option (List (String × ChunkNameAssets)) := none
  namedChunkGroups : Option (List (String × ChunkGroup)) := none

/-- `Config` from `src/types.ts`. -/
structure Config where
  statsPath : String := "webpack-stats.json"
  bundleSizeThreshold : Int
  totalSizeThreshold : Int
  failOnThresholdExceed : Bool := true

/-- `AnalyzedAsset` from `src/types.ts`. -/
structure AnalyzedAsset where
  name : String
  size : Int
  sizeText : String
  exceeded : Bool
  chunkNames : List String
  isInitial : Option Bool
deriving DecidableEq

/-- The `summary` component of `AnalysisResult`. -/
structure Summary where
  totalSize : Int
  totalSizeText : String
  fileCount : Nat
  exceededFileCount : Nat
deriving DecidableEq

/-- The `threshold` component of `AnalysisResult`. -/
structure ThresholdVerdict where
  individualExceeded : List String
  totalExceeded : Bool
  anyExceeded : Bool
deriving DecidableEq

/-- `AnalysisResult` from `src/types.ts`. -/
structure AnalysisResult where
  assets : List AnalyzedAsset
  summary : Summary
  threshold : ThresholdVerdict

/-- The `Map<string, string[]>` built by `buildChunkMapping`, modelled as
an association list in key-insertion order. -/
abbrev ChunkMapping := List (String × List String)

/-- `Map.prototype.get`: first (unique) binding of the key, if any. -/
def mapGet : ChunkMapping → String → Option (List String)
  | [], _ => none
  | e :: rest, k => if e.1 == k then some e.2 else mapGet rest k

/-- `Map.prototype.set`: replace the (unique) binding of the key in place,
or append a fresh binding at the end. -/
def mapSet : ChunkMapping → String → List String → ChunkMapping
  | [], k, v => [(k, v)]
  | e :: rest, k, v => if e.1 == k then (k, v) :: rest else e :: mapSet rest k v

/-- One step of the `assetsByChunkName` phase of `buildChunkMapping` for a
single asset name: `existing = mapping.get(asset) || []`,
`existing.push(chunkName)`, `mapping.set(asset, existing)`.  Note the push
is unconditional — this phase has no duplicate check. -/
def addChunkName (chunkName : String) (m : ChunkMapping) (asset : String) : ChunkMapping :=
  mapSet m asset (((mapGet m asset).getD []) ++ [chunkName])

/-- Processing of one `assetsByChunkName` entry
`[chunkName, assets]`: normalize the value to a list and attribute the
chunk name to each listed asset. -/
def chunkNameStep (m : ChunkMapping) (kv : String × ChunkNameAssets) : ChunkMapping :=
  (normalizeChunkAssets kv.2).foldl (addChunkName kv.1) m

/-- The inner loop of the `chunks` phase: append every chunk name that is
not already in the list (`if (!existing.includes(name)) existing.push(name)`). -/
def addNamesDedup (names ex : List String) : List String :=
  names.foldl (fun ex name => if name ∈ ex then ex else ex ++ [name]) ex

/-- Processing of one chunk record in `buildChunkMapping`: when the chunk
has a `files` list, each file receives the chunk's names, skipping names
already attributed. -/
def chunkStep (m : ChunkMapping) (chunk : Chunk) : ChunkMapping :=
  match chunk.files with
  | none => m
  | some files =>
    files.foldl (fun m file =>
      mapSet m file (addNamesDedup chunk.names ((mapGet m file).getD []))) m

/-- Processing of one `namedChunkGroups` entry `[groupName, group]`: each
asset of the group receives the group name unless already attributed. -/
def groupStep (m : ChunkMapping) (kv : String × ChunkGroup) : ChunkMapping :=
  kv.2.assets.foldl (fun m asset =>
    let existing := (mapGet m asset).getD []
    mapSet m asset (if kv.1 ∈ existing then existing else existing ++ [kv.1])) m

/-- The `if (stats.assetsByChunkName) { … }` block of `buildChunkMapping`. -/
def chunkNamePhase (src : Option (List (String × ChunkNameAssets))) (m : ChunkMapping) :
    ChunkMapping :=
  match src with
  | some entries => entries.foldl chunkNameStep m
  | none => m

/-- The `if (stats.chunks) { … }` block of `buildChunkMapping`. -/
def chunksPhase (src : Option (List Chunk)) (m : ChunkMapping) : ChunkMapping :=
  match src with
  | some chunks => chunks.foldl chunkStep m
  | none => m

/-- The `if (stats.namedChunkGroups) { … }` block of `buildChunkMapping`. -/
def groupsPhase (src : Option (List (String × ChunkGroup))) (m : ChunkMapping) : ChunkMapping :=
  match src with
  | some groups => groups.foldl groupStep m
  | none => m

/-- `BundleAnalyzer.buildChunkMapping`: starting from an empty mapping,
merge the three optional chunk attribution sources, in order
`assetsByChunkName`, `chunks`, `namedChunkGroups`. -/
def buildChunkMapping (stats : WebpackStats) : ChunkMapping :=
  groupsPhase stats.namedChunkGroups
    (chunksPhase stats.chunks
      (chunkNamePhase stats.assetsByChunkName []))

/-- The filter predicate of `BundleAnalyzer.analyzeAssets`: skip source
maps, license text files, and assets with `emitted === false`. -/
def reportable (asset : Asset) : Bool :=
  !(strEndsWith asset.name ".map") && !(strEndsWith asset.name ".LICENSE.txt")
    && asset.emitted != some false

/-- The map step of `BundleAnalyzer.analyzeAssets`: build the
`AnalyzedAsset` for one raw asset (`exceeded = size > threshold`, strict;
`isInitial = isOverSizeLimit !== undefined ? !isOverSizeLimit : undefined`). -/
def mkAnalyzed (threshold : Int) (chunkMapping : ChunkMapping) (asset : Asset) : AnalyzedAsset :=
  { name := asset.name
    size := asset.size
    sizeText := formatFileSize asset.size
    exceeded := decide (asset.size > threshold)
    chunkNames := (mapGet chunkMapping asset.name).getD []
    isInitial :=
      match asset.isOverSizeLimit with
      | some b => some (!b)
      | none => none }

/-- The list produced by `analyzeAssets` before its final `.sort`. -/
def analyzeAssetsPre (assets : List Asset) (threshold : Int)
    (chunkMapping : ChunkMapping) : List AnalyzedAsset :=
  (assets.filter reportable).map (mkAnalyzed threshold chunkMapping)

/-- The JavaScript comparator `(a, b) => b.size - a.size` keeps `a` before
`b` exactly when `b.size ≤ a.size`; `Array.prototype.sort` is a stable
sort with respect to it, modelled as `mergeSort` with this relation. -/
def assetGE (a b : AnalyzedAsset) : Bool :=
  decide (b.size ≤ a.size)

/-- `BundleAnalyzer.analyzeAssets`: filter, analyze, then stable-sort by
size descending. -/
def analyzeAssets (assets : List Asset) (threshold : Int)
    (chunkMapping : ChunkMapping) : List AnalyzedAsset :=
  (analyzeAssetsPre assets threshold chunkMapping).mergeSort assetGE

/-- `BundleAnalyzer.analyze`: build the chunk mapping, analyze the assets,
and assemble summary and threshold verdict. -/
def analyze (stats : WebpackStats) (config : Config) : AnalysisResult :=
  let chunkMapping := buildChunkMapping stats
  let analyzedAssets := analyzeAssets stats.assets config.bundleSizeThreshold chunkMapping
  let totalSize := analyzedAssets.foldl (fun sum asset => sum + asset.size) 0
  let exceededFiles := analyzedAssets.filter (fun asset => asset.exceeded)
  let individualExceeded := exceededFiles.map (fun asset => asset.name)
  let totalExceeded := decide (totalSize > config.totalSizeThreshold)
  { assets := analyzedAssets
    summary :=
      { totalSize := totalSize
        totalSizeText := formatFileSize totalSize
        fileCount := analyzedAssets.length
        exceededFileCount := exceededFiles.length }
    threshold :=
      { individualExceeded := individualExceeded
        totalExceeded := totalExceeded
        anyExceeded := decide (individualExceeded.length > 0) || totalExceeded } }

/-- A badge color palette (`BadgeColors` in `badge-generator.ts`). -/
structure BadgeColors where
  background : String
  text : String
  valueBackground : String
  valueText : String
deriving DecidableEq

/-- The `success` palette of `BadgeGenerator`. -/
def successColors : BadgeColors :=
  { background := "#555", text := "#fff", valueBackground := "#4c1", valueText := "#fff" }

/-- The `warning` palette of `BadgeGenerator`. -/
def warningColors : BadgeColors :=
  { background := "#555", text := "#fff", valueBackground := "#fe7d37", valueText := "#fff" }

/-- The `error` palette of `BadgeGenerator`. -/
def errorColors : BadgeColors :=
  { background := "#555", text := "#fff", valueBackground := "#e05d44", valueText := "#fff" }

/-- `BadgeGenerator.getColors`: error when `anyExceeded`, else warning
when some file individually exceeded, else success. -/
def getColors (result : AnalysisResult) : BadgeColors :=
  if result.threshold.anyExceeded then errorColors
  else if result.summary.exceededFileCount > 0 then warningColors
  else successColors

/-- The manifest of the end-to-end scenario in the specification. -/
def scenarioStats : WebpackStats :=
  { assets :=
      [ { name := "main.js", size := 1048576, emitted := some true }
      , { name := "vendor.js", size := 3145728, emitted := some true }
      , { name := "styles.css", size := 524288, emitted := some true }
      , { name := "main.js.map", size := 2097152, emitted := some true }
      , { name := "vendor.js.LICENSE.txt", size := 1024, emitted := some true } ] }

/-- The configuration of the end-to-end scenario in the specification. -/
def scenarioConfig : Config :=
  { bundleSizeThreshold := 2097152, totalSizeThreshold := 10485760 }

/-- A manifest whose `assetsByChunkName` lists the same asset twice under
one chunk name. -/
def dupStats : WebpackStats :=
  { assets := [{ name := "a.js", size := 100 }]
    assetsByChunkName := some [("main", ChunkNameAssets.many ["a.js", "a.js"])] }

/-- A configuration for exercising `dupStats`. -/
def dupConfig : Config :=
  { bundleSizeThreshold := 1000, totalSizeThreshold := 1000 }

/-- Well-formedness of the chunk attribution sources under which the
no-duplicates guarantee holds: when `assetsByChunkName` is present, its
keys are pairwise distinct (as they necessarily are for a JavaScript
object) and no single entry lists the same asset twice. -/
def wellFormedChunkSources (stats : WebpackStats) : Prop :=
  match stats.assetsByChunkName with
  | none => True
  | some entries =>
    (entries.map Prod.fst).Nodup ∧ ∀ kv ∈ entries, (normalizeChunkAssets kv.2).Nodup

theorem log1024_eq (n i : Nat) (h1 : 1024 ^ i ≤ n) (h2 : n < 1024 ^ (i + 1)) :
    Nat.log 1024 n = i :=
  Nat.log_eq_of_pow_le_of_lt_pow h1 h2

theorem formatFileSize_eval (bytes : Int) (i : Nat) (h0 : ¬ bytes = 0)
    (h : Nat.log 1024 bytes.natAbs = i) :
    formatFileSize bytes =
      if bytes < 0 then "-" ++ formatWithIndex bytes.natAbs i
      else formatWithIndex bytes.natAbs i := by
  simp only [formatFileSize, if_neg h0, h]

theorem ffs_1024 : formatFileSize 1024 = "1.00 KB" := by
  rw [formatFileSize_eval 1024 1 (by norm_num)
    (log1024_eq _ 1 (by norm_num) (by norm_num))]
  rfl

theorem ffs_neg_1024 : formatFileSize (-1024) = "-1.00 KB" := by
  rw [formatFileSize_eval (-1024) 1 (by norm_num)
    (log1024_eq _ 1 (by norm_num) (by norm_num))]
  rfl

theorem ffs_1572864 : formatFileSize 1572864 = "1.50 MB" := by
  rw [formatFileSize_eval 1572864 2 (by norm_num)
    (log1024_eq _ 2 (by norm_num) (by norm_num))]
  rfl

theorem ffs_4718592 : formatFileSize 4718592 = "4.50 MB" := by
  rw [formatFileSize_eval 4718592 2 (by norm_num)
    (log1024_eq _ 2 (by norm_num) (by norm_num))]
  rfl

theorem ffs_tib : formatFileSize 1099511627776 = "1.00 undefined" := by
  rw [formatFileSize_eval 1099511627776 4 (by norm_num)
    (log1024_eq _ 4 (by norm_num) (by norm_num))]
  rfl

theorem formatWithIndex_eq_spec (n i : Nat) :
    formatWithIndex n i =
      renderFixed n (1024 ^ i) (specPrecision i n (1024 ^ i)) ++ " " ++
        SIZES.getD i "undefined" := by
  simp only [formatWithIndex, specPrecision]
  split_ifs <;> first | rfl | omega

/-- C6: for every byte count, `formatFileSize` applies the specification's
precision rule to the scaled magnitude in the chosen unit — zero decimals
when the unit is bytes or the magnitude is at least 100, one decimal in
[10, 100), two below 10 — and the four quoted examples evaluate as
stated. -/
theorem c6_precision_rule :
    (∀ bytes : Int, formatFileSize bytes = formatFileSizeSpec bytes)
      ∧ formatFileSize 0 = "0 B"
      ∧ formatFileSize 1024 = "1.00 KB"
      ∧ formatFileSize 1572864 = "1.50 MB"
      ∧ formatFileSize (-1024) = "-1.00 KB" := by
  refine ⟨?_, rfl, ffs_1024, ffs_1572864, ffs_neg_1024⟩
  intro bytes
  by_cases h0 : bytes = 0
  · subst h0; rfl
  · simp only [formatFileSize, formatFileSizeSpec, if_neg h0,
      formatWithIndex_eq_spec]

/-- C7: the specification says byte counts of magnitude at least `1024^4`
keep `GB` as the unit; the code instead indexes past the end of the unit
table, rendering the unit as `"undefined"`.  At the failing input
`1099511627776 = 1024^4` the output is `"1.00 undefined"`, whose suffix is
not `"GB"`. -/
theorem c7_undefined_unit :
    formatFileSize 1099511627776 = "1.00 undefined"
      ∧ strEndsWith (formatFileSize 1099511627776) "GB" = false := by
  refine ⟨ffs_tib, ?_⟩
  rw [ffs_tib]
  decide

theorem isValidStats_iff (v : JsonValue) :
    isValidStats v = true ↔ specValidManifest v := by
  cases v with
  | obj fields =>
    simp only [isValidStats, jsTypeofObject, isJsNull, hasAssetsProp, assetsIsArray,
      specValidManifest, Bool.not_false, Bool.true_and, Bool.and_eq_true,
      JsonValue.obj.injEq]
    cases hl : lookupField fields "assets" with
    | none => simp [hl]
    | some w =>
      cases w <;> simp [hl, Option.isSome]
  | null => simp [isValidStats, isJsNull, specValidManifest]
  | bool b => simp [isValidStats, jsTypeofObject, specValidManifest]
  | num q => simp [isValidStats, jsTypeofObject, specValidManifest]
  | str s => simp [isValidStats, jsTypeofObject, specValidManifest]
  | arr elems => simp [isValidStats, jsTypeofObject, isJsNull, hasAssetsProp,
      specValidManifest]

/-- C8: `statsParse` fails with `JSON_PARSE_ERROR` exactly when the JSON
decoding failed, fails with `INVALID_STATS_FORMAT` exactly when the
decoded value is not an object containing an array-typed `assets` field,
and otherwise returns the decoded value unchanged. -/
theorem c8_parse_errors :
    ∀ content : Option JsonValue,
      (statsParse content = Except.error ErrorCode.JSON_PARSE_ERROR ↔ content = none)
        ∧ (statsParse content = Except.error ErrorCode.INVALID_STATS_FORMAT ↔
            ∃ v, content = some v ∧ ¬ specValidManifest v)
        ∧ (∀ v, statsParse content = Except.ok v ↔
            content = some v ∧ specValidManifest v) := by
  intro content
  cases content with
  | none => simp [statsParse]
  | some data =>
    by_cases hv : isValidStats data = true
    · have hs := (isValidStats_iff data).mp hv
      simp only [statsParse, if_pos hv]
      refine ⟨by simp, by simp [hs], ?_⟩
      intro v
      constructor
      · intro h
        cases h
        exact ⟨rfl, hs⟩
      · rintro ⟨h, -⟩
        cases h
        rfl
    · have hs : ¬ specValidManifest data := fun h => hv ((isValidStats_iff data).mpr h)
      have hp : statsParse (some data) = Except.error ErrorCode.INVALID_STATS_FORMAT := by
        simp [statsParse, hv]
      refine ⟨?_, ?_, ?_⟩
      · rw [hp]
        constructor
        · intro h
          exact absurd (Except.error.inj h) (by decide)
        · intro h
          exact Option.noConfusion h
      · rw [hp]
        exact ⟨fun _ => ⟨data, rfl, hs⟩, fun _ => rfl⟩
      · intro v
        rw [hp]
        constructor
        · intro h
          exact Except.noConfusion h
        · rintro ⟨h1, h2⟩
          cases h1
          exact (hs h2).elim

/-- C1: in every analysis result, `anyExceeded` equals
`individualExceeded.length > 0 || totalExceeded`, by construction. -/
theorem c1_any_exceeded :
    ∀ (stats : WebpackStats) (config : Config),
      (analyze stats config).threshold.anyExceeded =
        (decide ((analyze stats config).threshold.individualExceeded.length > 0)
          || (analyze stats config).threshold.totalExceeded) := by
  intro stats config
  rfl

/-- C10: the summary's count of exceeding files equals the length of the
verdict's `individualExceeded` list, and both equal the number of analyzed
assets whose `exceeded` flag is set. -/
theorem c10_counts_agree :
    ∀ (stats : WebpackStats) (config : Config),
      (analyze stats config).summary.exceededFileCount =
          (analyze stats config).threshold.individualExceeded.length
        ∧ (analyze stats config).threshold.individualExceeded.length =
            ((analyze stats config).assets.filter (fun a => a.exceeded)).length := by
  intro stats config
  exact ⟨(List.length_map _ _).symm, List.length_map _ _⟩

theorem anyExceeded_false_count (stats : WebpackStats) (config : Config)
    (h : (analyze stats config).threshold.anyExceeded = false) :
    (analyze stats config).summary.exceededFileCount = 0 := by
  have h2 : (decide ((analyze stats config).threshold.individualExceeded.length > 0)
      || (analyze stats config).threshold.totalExceeded) = false := h
  have h3 := (Bool.or_eq_false_iff.mp h2).1
  have h4 : (analyze stats config).threshold.individualExceeded.length = 0 := by
    simpa using of_decide_eq_false h3
  calc (analyze stats config).summary.exceededFileCount
      = (analyze stats config).threshold.individualExceeded.length :=
        (List.length_map _ _).symm
    _ = 0 := h4

/-- C9: on every analysis result produced by `analyze`, the badge color is
the error palette exactly when `anyExceeded` holds and the success palette
otherwise; the warning palette is never selected. -/
theorem c9_warning_unreachable :
    ∀ (stats : WebpackStats) (config : Config),
      getColors (analyze stats config) =
          (if (analyze stats config).threshold.anyExceeded then errorColors
           else successColors)
        ∧ getColors (analyze stats config) ≠ warningColors := by
  intro stats config
  cases h : (analyze stats config).threshold.anyExceeded with
  | true =>
    have hg : getColors (analyze stats config) = errorColors := by
      simp [getColors, h]
    refine ⟨by rw [hg]; simp, by rw [hg]; decide⟩
  | false =>
    have hc := anyExceeded_false_count stats config h
    have hg : getColors (analyze stats config) = successColors := by
      simp [getColors, h, hc]
    refine ⟨by rw [hg]; simp, by rw [hg]; decide⟩

unseal List.merge List.mergeSort in
/-- C2: the end-to-end scenario — five raw assets, two of which are
filtered out, individual threshold 2 MiB and aggregate threshold 10 MiB —
yields 3 reportable files totalling 4718592 bytes ("4.50 MB"), only
`vendor.js` individually exceeding, no aggregate violation, `anyExceeded`
true, and the assets ordered `vendor.js`, `main.js`, `styles.css`. -/
theorem c2_scenario :
    (analyze scenarioStats scenarioConfig).summary.fileCount = 3
      ∧ (analyze scenarioStats scenarioConfig).summary.totalSize = 4718592
      ∧ (analyze scenarioStats scenarioConfig).summary.totalSizeText = "4.50 MB"
      ∧ (analyze scenarioStats scenarioConfig).threshold.individualExceeded = ["vendor.js"]
      ∧ (analyze scenarioStats scenarioConfig).threshold.totalExceeded = false
      ∧ (analyze scenarioStats scenarioConfig).threshold.anyExceeded = true
      ∧ (analyze scenarioStats scenarioConfig).assets.map AnalyzedAsset.name =
          ["vendor.js", "main.js", "styles.css"] := by
  refine ⟨rfl, rfl, ?_, rfl, rfl, rfl, rfl⟩
  have h : (analyze scenarioStats scenarioConfig).summary.totalSizeText =
      formatFileSize ((analyze scenarioStats scenarioConfig).summary.totalSize) := rfl
  rw [h, show (analyze scenarioStats scenarioConfig).summary.totalSize = 4718592 from rfl,
    ffs_4718592]

theorem foldl_add_size (l : List AnalyzedAsset) (n : Int) :
    l.foldl (fun sum asset => sum + asset.size) n = n + (l.map AnalyzedAsset.size).sum := by
  induction l generalizing n with
  | nil => simp
  | cons a t ih => simp [ih]; ring

/-- C3: the analyzed assets are, up to the sort, exactly the images of the
reportable raw assets (name not ending in `.map` nor `.LICENSE.txt` and
`emitted` not explicitly false); filtered-out assets contribute neither to
the file count nor to the total size. -/
theorem c3_reportable_filter :
    ∀ (stats : WebpackStats) (config : Config),
      List.Perm (analyze stats config).assets
          ((stats.assets.filter reportable).map
            (mkAnalyzed config.bundleSizeThreshold (buildChunkMapping stats)))
        ∧ (analyze stats config).summary.fileCount = (stats.assets.filter reportable).length
        ∧ (analyze stats config).summary.totalSize =
            ((stats.assets.filter reportable).map Asset.size).sum := by
  intro stats config
  refine ⟨List.mergeSort_perm _ _, ?_, ?_⟩
  · show (List.mergeSort (analyzeAssetsPre stats.assets config.bundleSizeThreshold
        (buildChunkMapping stats)) assetGE).length = (stats.assets.filter reportable).length
    simp [analyzeAssetsPre]
  · show (List.mergeSort (analyzeAssetsPre stats.assets config.bundleSizeThreshold
          (buildChunkMapping stats)) assetGE).foldl (fun sum asset => sum + asset.size) 0 =
        ((stats.assets.filter reportable).map Asset.size).sum
    rw [foldl_add_size, zero_add]
    have hp : List.Perm
        ((List.mergeSort (analyzeAssetsPre stats.assets config.bundleSizeThreshold
          (buildChunkMapping stats)) assetGE).map AnalyzedAsset.size)
        ((analyzeAssetsPre stats.assets config.bundleSizeThreshold
          (buildChunkMapping stats)).map AnalyzedAsset.size) :=
      (List.mergeSort_perm _ _).map _
    rw [hp.sum_eq]
    simp only [analyzeAssetsPre, List.map_map]
    rfl

theorem assetGE_trans (a b c : AnalyzedAsset) :
    assetGE a b → assetGE b c → assetGE a c := by
  simp only [assetGE, decide_eq_true_eq]
  omega

theorem assetGE_total (a b : AnalyzedAsset) : assetGE a b || assetGE b a := by
  simp only [assetGE]
  by_cases h : b.size ≤ a.size
  · simp [h]
  · simp [le_of_not_le h]

theorem filter_mergeSort_eq {α : Type} (le : α → α → Bool) (p : α → Bool)
    (htrans : ∀ a b c, le a b → le b c → le a c)
    (htotal : ∀ a b, le a b || le b a)
    (hp : ∀ a b, p a → p b → le a b) (l : List α) :
    (l.mergeSort le).filter p = l.filter p := by
  have hsub : List.Sublist (l.filter p) l := List.filter_sublist l
  have hpair : (l.filter p).Pairwise (fun a b => le a b) := by
    apply List.pairwise_of_forall_mem_list
    intro a ha b hb
    exact hp a b (List.of_mem_filter ha) (List.of_mem_filter hb)
  have h1 : List.Sublist (l.filter p) (l.mergeSort le) :=
    List.sublist_mergeSort htrans htotal hpair hsub
  have h2 : (l.filter p).filter p = l.filter p := by
    apply List.filter_eq_self.mpr
    intro a ha
    exact List.of_mem_filter ha
  have h3 : List.Sublist (l.filter p) ((l.mergeSort le).filter p) := h2 ▸ h1.filter p
  have h4 : List.Perm ((l.mergeSort le).filter p) (l.filter p) :=
    (List.mergeSort_perm l le).filter p
  exact (h3.eq_of_length h4.length_eq.symm).symm

/-- C4: the analyzer's output is sorted by size descending, and assets of
equal size appear in the same relative order as in the pre-sort sequence,
which itself preserves the manifest's asset order (the sort is stable). -/
theorem c4_stable_sort :
    ∀ (stats : WebpackStats) (config : Config),
      ((analyze stats config).assets.Pairwise (fun a b => b.size ≤ a.size))
        ∧ ∀ sz : Int,
            (analyze stats config).assets.filter (fun a => a.size == sz) =
              (analyzeAssetsPre stats.assets config.bundleSizeThreshold
                (buildChunkMapping stats)).filter (fun a => a.size == sz) := by
  intro stats config
  constructor
  · have h := List.sorted_mergeSort assetGE_trans assetGE_total
      (analyzeAssetsPre stats.assets config.bundleSizeThreshold (buildChunkMapping stats))
    exact h.imp (fun hab => by simpa [assetGE] using hab)
  · intro sz
    show (List.mergeSort (analyzeAssetsPre stats.assets config.bundleSizeThreshold
        (buildChunkMapping stats)) assetGE).filter (fun a => a.size == sz) = _
    apply filter_mergeSort_eq assetGE (fun a => a.size == sz) assetGE_trans assetGE_total
    intro a b ha hb
    have ha' : a.size = sz := by simpa using ha
    have hb' : b.size = sz := by simpa using hb
    simp [assetGE, ha', hb']

theorem mapGet_eq_some (k : String) (v : List String) :
    ∀ (m : ChunkMapping), mapGet m k = some v → ∃ e ∈ m, e.1 = k ∧ e.2 = v := by
  intro m h
  induction m with
  | nil => simp [mapGet] at h
  | cons e rest ih =>
    unfold mapGet at h
    split at h
    · next heq =>
      cases h
      exact ⟨e, List.mem_cons_self e rest, by simpa using heq, rfl⟩
    · obtain ⟨f, hf, h1, h2⟩ := ih h
      exact ⟨f, List.mem_cons_of_mem e hf, h1, h2⟩

theorem mem_mapSet (m : ChunkMapping) (k : String) (v : List String) (e : String × List String)
    (h : e ∈ mapSet m k v) : e = (k, v) ∨ e ∈ m := by
  induction m with
  | nil =>
    simp [mapSet] at h
    left
    exact h
  | cons f rest ih =>
    unfold mapSet at h
    split at h
    · rcases List.mem_cons.mp h with h1 | h1
      · exact Or.inl h1
      · exact Or.inr (List.mem_cons_of_mem f h1)
    · rcases List.mem_cons.mp h with h1 | h1
      · exact Or.inr (h1 ▸ List.mem_cons_self f rest)
      · rcases ih h1 with h2 | h2
        · exact Or.inl h2
        · exact Or.inr (List.mem_cons_of_mem f h2)

theorem getD_nodup (m : ChunkMapping) (hm : ∀ e ∈ m, e.2.Nodup) (a : String) :
    ((mapGet m a).getD []).Nodup := by
  cases hg : mapGet m a with
  | none => simp
  | some v =>
    obtain ⟨e, he, -, h2⟩ := mapGet_eq_some a v m hg
    simpa [h2] using hm e he

theorem addChunkName_fold (k : String) (K : List String) (hkK : k ∉ K) :
    ∀ (al : List String), ∀ (ds : List String) (m : ChunkMapping),
      al.Nodup → (∀ a ∈ al, a ∉ ds) →
      (∀ e ∈ m, e.2.Nodup ∧ ∀ x ∈ e.2, x ∈ K ∨ (x = k ∧ e.1 ∈ ds)) →
      ∀ e ∈ al.foldl (addChunkName k) m, e.2.Nodup ∧ ∀ x ∈ e.2, x ∈ K ∨ x = k := by
  intro al
  induction al with
  | nil =>
    intro ds m _ _ hm e he
    obtain ⟨h1, h2⟩ := hm e he
    exact ⟨h1, fun x hx => (h2 x hx).imp id And.left⟩
  | cons a al ih =>
    intro ds m hnd hds hm
    rw [List.foldl_cons]
    apply ih (ds ++ [a])
    · exact hnd.of_cons
    · intro a' ha'
      have h1 := hds a' (List.mem_cons_of_mem a ha')
      have h2 : a' ≠ a := by
        rintro rfl
        exact (List.nodup_cons.mp hnd).1 ha'
      simp [h1, h2]
    · intro e he
      rcases mem_mapSet m a (((mapGet m a).getD []) ++ [k]) e he with he1 | he1
      · have hex : ∀ x ∈ (mapGet m a).getD [], x ∈ K := by
          intro x hx
          cases hg : mapGet m a with
          | none => rw [hg] at hx; simp at hx
          | some v =>
            rw [hg] at hx
            simp at hx
            obtain ⟨f, hf, hf1, hf2⟩ := mapGet_eq_some a v m hg
            rcases (hm f hf).2 x (by rw [hf2]; exact hx) with h | h
            · exact h
            · exact absurd (hf1 ▸ h.2) (hds a (List.mem_cons_self a al))
        have hexnd : ((mapGet m a).getD []).Nodup :=
          getD_nodup m (fun f hf => (hm f hf).1) a
        have hknot : k ∉ (mapGet m a).getD [] := fun hk => hkK (hex k hk)
        subst he1
        constructor
        · simp only [List.nodup_append]
          exact ⟨hexnd, List.nodup_singleton k, by simpa using hknot⟩
        · intro x hx
          rcases List.mem_append.mp hx with h | h
          · exact Or.inl (hex x h)
          · simp at h
            exact Or.inr ⟨h, by simp⟩
      · obtain ⟨h1, h2⟩ := hm e he1
        refine ⟨h1, fun x hx => (h2 x hx).imp id ?_⟩
        rintro ⟨hxk, hin⟩
        exact ⟨hxk, List.mem_append_left _ hin⟩

theorem chunkNameFold_nodup :
    ∀ (entries : List (String × ChunkNameAssets)) (K : List String) (m : ChunkMapping),
      (entries.map Prod.fst).Nodup →
      (∀ kv ∈ entries, (normalizeChunkAssets kv.2).Nodup) →
      (∀ kv ∈ entries, kv.1 ∉ K) →
      (∀ e ∈ m, e.2.Nodup ∧ ∀ x ∈ e.2, x ∈ K) →
      ∀ e ∈ entries.foldl chunkNameStep m,
        e.2.Nodup ∧ ∀ x ∈ e.2, x ∈ K ∨ x ∈ entries.map Prod.fst := by
  intro entries
  induction entries with
  | nil =>
    intro K m _ _ _ hm e he
    obtain ⟨h1, h2⟩ := hm e he
    exact ⟨h1, fun x hx => Or.inl (h2 x hx)⟩
  | cons kv rest ih =>
    intro K m hkeys hvals hKs hm
    rw [List.foldl_cons]
    have hstep : ∀ e ∈ chunkNameStep m kv,
        e.2.Nodup ∧ ∀ x ∈ e.2, x ∈ K ++ [kv.1] := by
      intro e he
      have := addChunkName_fold kv.1 K (hKs kv (List.mem_cons_self kv rest))
        (normalizeChunkAssets kv.2) [] m (hvals kv (List.mem_cons_self kv rest))
        (by simp)
        (fun f hf => ⟨(hm f hf).1, fun x hx => Or.inl ((hm f hf).2 x hx)⟩) e he
      exact ⟨this.1, fun x hx => by
        rcases this.2 x hx with h | h
        · exact List.mem_append_left _ h
        · simp [h]⟩
    have hrest := ih (K ++ [kv.1]) (chunkNameStep m kv)
      (by simpa using (List.nodup_cons.mp (by simpa using hkeys)).2)
      (fun kv' h => hvals kv' (List.mem_cons_of_mem kv h))
      (by
        intro kv' h
        have hne : kv'.1 ≠ kv.1 := by
          intro heq
          have hmem : kv'.1 ∈ rest.map Prod.fst := List.mem_map_of_mem Prod.fst h
          rw [heq] at hmem
          exact (List.nodup_cons.mp (by simpa using hkeys)).1 hmem
        simp [hKs kv' (List.mem_cons_of_mem kv h), hne])
      hstep
    intro e he
    obtain ⟨h1, h2⟩ := hrest e he
    refine ⟨h1, fun x hx => ?_⟩
    rcases h2 x hx with h | h
    · rcases List.mem_append.mp h with h' | h'
      · exact Or.inl h'
      · simp at h'
        simp [h']
    · simp [h]

theorem addNamesDedup_nodup :
    ∀ (names ex : List String), ex.Nodup → (addNamesDedup names ex).Nodup := by
  intro names
  induction names with
  | nil => intro ex h; exact h
  | cons n rest ih =>
    intro ex h
    show (addNamesDedup rest (if n ∈ ex then ex else ex ++ [n])).Nodup
    apply ih
    split_ifs with h1
    · exact h
    · simp [List.nodup_append, h, h1]

theorem chunkFilesFold_nodup (names : List String) :
    ∀ (files : List String) (m : ChunkMapping), (∀ e ∈ m, e.2.Nodup) →
      ∀ e ∈ files.foldl (fun m file =>
          mapSet m file (addNamesDedup names ((mapGet m file).getD []))) m,
        e.2.Nodup := by
  intro files
  induction files with
  | nil => intro m hm; exact hm
  | cons f rest ih =>
    intro m hm
    rw [List.foldl_cons]
    apply ih
    intro e he
    rcases mem_mapSet m f (addNamesDedup names ((mapGet m f).getD [])) e he with h | h
    · rw [h]
      exact addNamesDedup_nodup names _ (getD_nodup m hm f)
    · exact hm e h

theorem chunkStep_nodup (m : ChunkMapping) (chunk : Chunk) (hm : ∀ e ∈ m, e.2.Nodup) :
    ∀ e ∈ chunkStep m chunk, e.2.Nodup := by
  unfold chunkStep
  cases chunk.files with
  | none => exact hm
  | some files => exact chunkFilesFold_nodup chunk.names files m hm

theorem chunksFold_nodup :
    ∀ (chunks : List Chunk) (m : ChunkMapping), (∀ e ∈ m, e.2.Nodup) →
      ∀ e ∈ chunks.foldl chunkStep m, e.2.Nodup := by
  intro chunks
  induction chunks with
  | nil => intro m hm; exact hm
  | cons c rest ih =>
    intro m hm
    rw [List.foldl_cons]
    exact ih (chunkStep m c) (chunkStep_nodup m c hm)

theorem groupAssetsFold_nodup (k : String) :
    ∀ (assets : List String) (m : ChunkMapping), (∀ e ∈ m, e.2.Nodup) →
      ∀ e ∈ assets.foldl (fun m asset =>
          let existing := (mapGet m asset).getD []
          mapSet m asset (if k ∈ existing then existing else existing ++ [k])) m,
        e.2.Nodup := by
  intro assets
  induction assets with
  | nil => intro m hm; exact hm
  | cons a rest ih =>
    intro m hm
    rw [List.foldl_cons]
    apply ih
    intro e he
    rcases mem_mapSet m a _ e he with h | h
    · rw [h]
      have hnd := getD_nodup m hm a
      split_ifs with h1
      · exact hnd
      · simp [List.nodup_append, hnd, h1]
    · exact hm e h

theorem groupStep_nodup (m : ChunkMapping) (kv : String × ChunkGroup)
    (hm : ∀ e ∈ m, e.2.Nodup) : ∀ e ∈ groupStep m kv, e.2.Nodup :=
  groupAssetsFold_nodup kv.1 kv.2.assets m hm

theorem groupsFold_nodup :
    ∀ (groups : List (String × ChunkGroup)) (m : ChunkMapping), (∀ e ∈ m, e.2.Nodup) →
      ∀ e ∈ groups.foldl groupStep m, e.2.Nodup := by
  intro groups
  induction groups with
  | nil => intro m hm; exact hm
  | cons g rest ih =>
    intro m hm
    rw [List.foldl_cons]
    exact ih (groupStep m g) (groupStep_nodup m g hm)

theorem buildChunkMapping_nodup (stats : WebpackStats)
    (hw : wellFormedChunkSources stats) :
    ∀ e ∈ buildChunkMapping stats, e.2.Nodup := by
  have h1 : ∀ e ∈ chunkNamePhase stats.assetsByChunkName [], e.2.Nodup := by
    unfold chunkNamePhase
    unfold wellFormedChunkSources at hw
    cases habc : stats.assetsByChunkName with
    | none => simp
    | some entries =>
      rw [habc] at hw
      intro e he
      exact (chunkNameFold_nodup entries [] [] hw.1 hw.2 (by simp) (by simp) e he).1
  have h2 : ∀ e ∈ chunksPhase stats.chunks (chunkNamePhase stats.assetsByChunkName []),
      e.2.Nodup := by
    unfold chunksPhase
    cases stats.chunks with
    | none => exact h1
    | some chunks => exact chunksFold_nodup chunks _ h1
  unfold buildChunkMapping groupsPhase
  cases stats.namedChunkGroups with
  | none => exact h2
  | some groups => exact groupsFold_nodup groups _ h2

/-- C5 (amended): when the `assetsByChunkName` record is well formed — its
keys pairwise distinct, as a JavaScript object guarantees, and no single
entry listing the same asset twice — every asset's `chunkNames` list in
the analyzer's output is free of duplicates.  (Without that proviso the
first merge phase appends unconditionally and can duplicate a name; see
the counterexample.) -/
theorem c5_chunkNames_nodup :
    ∀ (stats : WebpackStats) (config : Config),
      wellFormedChunkSources stats →
      ∀ a ∈ (analyze stats config).assets, a.chunkNames.Nodup := by
  intro stats config hw a ha
  have ha2 : a ∈ analyzeAssetsPre stats.assets config.bundleSizeThreshold
      (buildChunkMapping stats) := List.mem_mergeSort.mp ha
  obtain ⟨b, hb, rfl⟩ := List.mem_map.mp ha2
  show ((mapGet (buildChunkMapping stats) b.name).getD []).Nodup
  exact getD_nodup _ (buildChunkMapping_nodup stats hw) b.name

/-- Witness for C5 (amended) at the scenario manifest, whose chunk sources
are trivially well formed. -/
theorem c5_chunkNames_nodup_witness :
    wellFormedChunkSources scenarioStats ∧
      ∀ a ∈ (analyze scenarioStats scenarioConfig).assets, a.chunkNames.Nodup :=
  ⟨trivial, c5_chunkNames_nodup scenarioStats scenarioConfig trivial⟩

unseal List.merge List.mergeSort in
/-- Counterexample to C5 as stated: a manifest whose `assetsByChunkName`
lists `a.js` twice under the chunk name `main` makes the analyzer output
`chunkNames = ["main", "main"]` for that asset — a duplicated name. -/
theorem c5_counterexample :
    ((analyze dupStats dupConfig).assets.map AnalyzedAsset.chunkNames) = [["main", "main"]]
      ∧ ¬ (∀ a ∈ (analyze dupStats dupConfig).assets, a.chunkNames.Nodup) := by
  constructor
  · rfl
  · decide
